import Mathlib

/-!
Verification of the synchronization/cache core of the `primer` CLI
(registry fetcher `ManifestService`, content cache `PrimerCache`, meta
store `meta.ts`, compact-index generator `compact.ts`).

Modelling conventions (shallow embedding of the TypeScript source):

* JavaScript objects used as string-keyed records (`manifest.primers`,
  `meta.primers`, etag maps) are modelled as association lists
  `List (String × _)`; `obj[k]` is `List.lookup`, and the spread update
  `{...obj, [k]: v}` is `setPair` (replace in place, append if new),
  matching JS insertion-order semantics.
* The local file tree is a flat map from path string to file contents
  (`FS := List (String × String)`); `fs.exists p` is `(fsRead fs p).isSome`
  and `fs.writeFileString` is `fsWrite`.  `fs.makeDirectory` is a no-op in
  this representation.
* Values of type `Effect.Effect<A, E>` are modelled as `Except E A`
  together with explicit state passing; where a claim needs "performs no
  network I/O", the operation also returns the list (or count) of HTTP
  requests it issued.
* HTTP responses are `HResp`: either a transport failure or a
  status/body/etag triple, delivered by a deterministic origin oracle.
* Several core `String` functions (`endsWith`, `splitOn`, `trim`, …) are
  re-implemented here on `String.data` so that all definitions reduce in
  the kernel; they have the same semantics as the JS methods used by the
  source.
-/

/-! ## String helpers (kernel-reducible re-implementations) -/

/-- JS `s.endsWith(suffix)`. -/
def strEndsWith (s suffix : String) : Bool :=
  suffix.data.isSuffixOf s.data

/-- JS `s.startsWith(p)`. -/
def strStartsWith (s p : String) : Bool :=
  p.data.isPrefixOf s.data

/-- Split a character list on a separator character, keeping empty pieces
(the semantics of JS `s.split(sep)` for a one-character separator). -/
def splitCharList (sep : Char) : List Char → List (List Char)
  | [] => [[]]
  | c :: rest =>
    let r := splitCharList sep rest
    if c = sep then [] :: r
    else
      match r with
      | [] => [[c]]
      | l :: ls => (c :: l) :: ls

/-- JS `content.split("\n")`. -/
def strLines (s : String) : List String :=
  (splitCharList '\n' s.data).map String.mk

/-- JS `s.toLowerCase()` (ASCII). -/
def lowerStr (s : String) : String :=
  ⟨s.data.map Char.toLower⟩

/-- JS `s.trim()` (whitespace as recognised by `Char.isWhitespace`). -/
def strTrim (s : String) : String :=
  ⟨((s.data.dropWhile Char.isWhitespace).reverse.dropWhile Char.isWhitespace).reverse⟩

/-- JS `s.slice(n)` (drop the first `n` characters). -/
def strDrop (s : String) (n : Nat) : String :=
  ⟨s.data.drop n⟩

/-- The effect of the JS regex replace `s.replace(/suf$/, "")`:
drop `suf` from the end of `s` when present. -/
def dropSuffixIf (s suf : String) : String :=
  if strEndsWith s suf then ⟨s.data.take (s.data.length - suf.data.length)⟩ else s

/-- JS `s.includes(q)` (substring test). -/
def strContainsSub (s q : String) : Bool :=
  decide (q.data <:+: s.data)

/-- JS `s.replace(/\//g, " ")`. -/
def slashToSpace (s : String) : String :=
  ⟨s.data.map (fun c => if c = '/' then ' ' else c)⟩

/-- JS truthiness of a `string | undefined` value: defined and non-empty. -/
def truthy (o : Option String) : Option String :=
  match o with
  | some s => if s = "" then none else some s
  | none => none

/-! ## Shared data model (from `src/lib/meta.ts` and `ManifestService.ts`) -/

/-- One bundle entry of the registry (`PrimerConfigSchema`). -/
structure PrimerConfig where
  description : String
  files : List String
deriving Repr, DecidableEq

/-- The registry (`ManifestSchema`): `version` plus a record of bundles. -/
structure Manifest where
  version : Int
  primers : List (String × PrimerConfig)
deriving Repr, DecidableEq

/-- Per-bundle entry of the persisted Meta record (`PrimerMetaEntry`).
The `{ etag: string }` wrapper of the source is flattened to the string. -/
structure PrimerMetaEntry where
  fetchedAt : String
  etags : Option (List (String × String))
deriving Repr, DecidableEq

/-- The persisted Meta record (`MetaSchema`); all fields optional. -/
structure Meta where
  manifestFetchedAt : Option String := none
  manifestEtag : Option String := none
  primers : Option (List (String × PrimerMetaEntry)) := none
deriving Repr, DecidableEq

/-- The error taxonomy of `src/lib/errors.ts` (`cause` payloads dropped). -/
inductive PrimerError where
  | contentNotFound (path : String)
  | fetchError (url : String)
  | manifestError
deriving Repr, DecidableEq

/-! ## Association-list primitives -/

/-- JS object update `{...m, [k]: v}`: replace in place or append. -/
def setPair {α : Type} : List (String × α) → String → α → List (String × α)
  | [], k, v => [(k, v)]
  | (k', v') :: rest, k, v =>
    if k' = k then (k, v) :: rest else (k', v') :: setPair rest k v

theorem lookup_setPair_self {α : Type} (m : List (String × α)) (k : String) (v : α) :
    (setPair m k v).lookup k = some v := by
  induction m with
  | nil => simp [setPair, List.lookup]
  | cons hd tl ih =>
    obtain ⟨k', v'⟩ := hd
    by_cases h : k' = k
    · simp [setPair, h, List.lookup]
    · simp only [setPair, if_neg h, List.lookup]
      have : (k == k') = false := by
        simp [beq_iff_eq]; exact fun hh => h hh.symm
      simp [this, ih]

theorem lookup_setPair_other {α : Type} (m : List (String × α)) (k k' : String) (v : α)
    (h : k' ≠ k) : (setPair m k v).lookup k' = m.lookup k' := by
  have hkk : (k' == k) = false := by simp [beq_iff_eq, h]
  induction m with
  | nil => simp [setPair, List.lookup, hkk]
  | cons hd tl ih =>
    obtain ⟨k₀, v₀⟩ := hd
    by_cases h0 : k₀ = k
    · subst h0
      simp [setPair, List.lookup, hkk]
    · simp only [setPair, if_neg h0, List.lookup]
      by_cases h1 : k' = k₀
      · simp [h1]
      · have e1 : (k' == k₀) = false := by simp [beq_iff_eq, h1]
        simp [e1, ih]

/-- Presence of a key is preserved by any `setPair`. -/
theorem lookup_setPair_mono {α : Type} (m : List (String × α)) (k k' : String) (v : α)
    (h : (m.lookup k').isSome) : ((setPair m k v).lookup k').isSome := by
  by_cases hk : k' = k
  · subst hk; simp [lookup_setPair_self]
  · rw [lookup_setPair_other m k k' v hk]; exact h

/-! ## Flat filesystem model -/

/-- The local file tree: path string → file contents. -/
abbrev FS := List (String × String)

/-- `fs.readFileString` / the contents behind `fs.exists`. -/
def fsRead (fs : FS) (p : String) : Option String := fs.lookup p

/-- `fs.writeFileString`. -/
def fsWrite (fs : FS) (p c : String) : FS := setPair fs p c

/-! ## `PrimerCache.resolve` and `resolvePath`
(from `src/services/PrimerCache.ts`, lines 164–200) -/

/-- The two candidate paths `resolve`/`resolvePath` try, in order:
`<base>/<segments...>/index.md`, then the joined path with `.md`
appended only when absent. -/
def resolveCandidates (basePath : String) (segments : List String) : String × String :=
  let targetPath := String.intercalate "/" (basePath :: segments)
  (targetPath ++ "/index.md",
   if strEndsWith targetPath ".md" then targetPath else targetPath ++ ".md")

/-- `resolve`: pure local lookup returning the first hit's contents.
(`fs.exists` followed by `fs.readFileString` collapses to one `fsRead`
since the filesystem does not change in between.) -/
def resolve (basePath : String) (fs : FS) (segments : List String) :
    Except PrimerError String :=
  let targetPath := String.intercalate "/" (basePath :: segments)
  let indexPath := targetPath ++ "/index.md"
  match fsRead fs indexPath with
  | some content => .ok content
  | none =>
    let mdPath := if strEndsWith targetPath ".md" then targetPath else targetPath ++ ".md"
    match fsRead fs mdPath with
    | some content => .ok content
    | none => .error (.contentNotFound (String.intercalate "/" segments))

/-- `resolvePath`: identical resolution order, returns the location. -/
def resolvePath (basePath : String) (fs : FS) (segments : List String) :
    Except PrimerError String :=
  let targetPath := String.intercalate "/" (basePath :: segments)
  let indexPath := targetPath ++ "/index.md"
  match fsRead fs indexPath with
  | some _ => .ok indexPath
  | none =>
    let mdPath := if strEndsWith targetPath ".md" then targetPath else targetPath ++ ".md"
    match fsRead fs mdPath with
    | some _ => .ok mdPath
    | none => .error (.contentNotFound (String.intercalate "/" segments))

/-- C7: `resolve(segments)` and `resolvePath(segments)` are pure local
lookups (their types take no network oracle): they try
`<base>/<segments...>/index.md` first, then the joined path with `.md`
appended only if absent, return the first hit's contents (respectively its
path), and fail with `ContentNotFoundError` exactly when neither candidate
exists. -/
theorem resolve_resolvePath_characterization
    (basePath : String) (fs : FS) (segments : List String) :
    (∀ c, resolve basePath fs segments = .ok c ↔
      (fsRead fs (resolveCandidates basePath segments).1 = some c ∨
        (fsRead fs (resolveCandidates basePath segments).1 = none ∧
          fsRead fs (resolveCandidates basePath segments).2 = some c))) ∧
    (resolve basePath fs segments =
        .error (.contentNotFound (String.intercalate "/" segments)) ↔
      (fsRead fs (resolveCandidates basePath segments).1 = none ∧
        fsRead fs (resolveCandidates basePath segments).2 = none)) ∧
    (∀ p, resolvePath basePath fs segments = .ok p ↔
      ((p = (resolveCandidates basePath segments).1 ∧
          (fsRead fs (resolveCandidates basePath segments).1).isSome) ∨
        (p = (resolveCandidates basePath segments).2 ∧
          fsRead fs (resolveCandidates basePath segments).1 = none ∧
          (fsRead fs (resolveCandidates basePath segments).2).isSome))) ∧
    (resolvePath basePath fs segments =
        .error (.contentNotFound (String.intercalate "/" segments)) ↔
      (fsRead fs (resolveCandidates basePath segments).1 = none ∧
        fsRead fs (resolveCandidates basePath segments).2 = none)) := by
  cases h1 : fsRead fs (resolveCandidates basePath segments).1 <;>
    cases h2 : fsRead fs (resolveCandidates basePath segments).2 <;>
      (simp only [resolveCandidates] at h1 h2 ⊢;
       refine ⟨fun c => ?_, ?_, fun p => ?_, ?_⟩ <;>
         simp [resolve, resolvePath, h1, h2] <;> try tauto)

/-- Closed witness for the C7 theorem at a concrete store. -/
theorem resolve_resolvePath_characterization_witness :
    resolve "b" [("b/a/index.md", "X")] ["a"] = .ok "X" :=
  ((resolve_resolvePath_characterization "b" [("b/a/index.md", "X")] ["a"]).1 "X").mpr
    (Or.inl (by decide))

/-! ## HTTP model -/

/-- An HTTP exchange outcome: transport failure, or status/body/etag.
The origin is modelled as a deterministic oracle from the request's
`If-None-Match` header (`none` when the request is unconditional). -/
inductive HResp (β : Type) where
  | fail
  | resp (status : Nat) (body : β) (etag : Option String)
deriving Repr, DecidableEq

/-- A registry body abstracted to its parse outcome: `Schema.parseJson`
either yields a `Manifest` or fails; the raw JSON text is kept only for
bodies that do not parse. -/
inductive Body where
  | wf (m : Manifest)
  | malformed (s : String)
deriving Repr, DecidableEq

/-- `Schema.decode(ManifestFromJson)` on an abstracted body. -/
def decodeBody : Body → Option Manifest
  | .wf m => some m
  | .malformed _ => none

/-! ## `ManifestService` (from `src/services/ManifestService.ts`) -/

/-- The manifest resource URL (`RAW_BASE` + `/primers/_manifest.json`). -/
def manifestUrl : String :=
  "https://raw.githubusercontent.com/cevr/primer/main/primers/_manifest.json"

/-- The persistent state `ManifestService` touches: the cached registry
file `_manifest.json` (abstracted to its parse outcome) and the Meta file
`_meta.json` (`none` = absent, `some none` = present but unparseable,
`some (some m)` = present and parsing to `m`). -/
structure MSt where
  manifestFile : Option Body
  metaFile : Option (Option Meta)
deriving Repr, DecidableEq

/-- `readMeta`: tolerant defaults — empty Meta on absence or parse
failure (from `src/lib/meta.ts`). -/
def readMetaSt (st : MSt) : Meta :=
  (st.metaFile.getD none).getD {}

deriving instance DecidableEq for Except

/-- Outcome of a `ManifestService` operation: result, final state, and
the number of HTTP requests issued. -/
structure MRes where
  result : Except PrimerError Manifest
  st : MSt
  fetches : Nat
deriving Repr, DecidableEq

/-- `readCached`: `null` when the cached manifest file is absent, the
parsed manifest when it parses, and a `ManifestError` otherwise. -/
def readCached (st : MSt) : Except PrimerError (Option Manifest) :=
  match st.manifestFile with
  | none => .ok none
  | some b =>
    match decodeBody b with
    | none => .error .manifestError
    | some m => .ok (some m)

/-- `fetchManifestWithoutEtag`: one unconditional request; on 200 with a
parsing body, persist the body, update Meta, and return the parse. -/
def fetchManifestWithoutEtag (oracle : Option String → HResp Body) (now : String)
    (st : MSt) : MRes :=
  match oracle none with
  | .fail => ⟨.error (.fetchError manifestUrl), st, 1⟩
  | .resp status body etg =>
    if status ≠ 200 then ⟨.error (.fetchError manifestUrl), st, 1⟩
    else
      match decodeBody body with
      | none => ⟨.error .manifestError, st, 1⟩
      | some parsed =>
        let st1 : MSt := { st with manifestFile := some body }
        let meta := readMetaSt st1
        let updated : Meta :=
          { meta with manifestFetchedAt := some now, manifestEtag := etg }
        ⟨.ok parsed, { st1 with metaFile := some (some updated) }, 1⟩

/-- `fetchManifest`: conditional request using the cached `manifestEtag`
(JS truthiness: an empty-string etag sends no header). On 304, return the
local cached copy, falling back to an unconditional fetch only when that
copy is missing; a present-but-unparseable copy raises `ManifestError`. -/
def fetchManifest (oracle : Option String → HResp Body) (now : String)
    (st : MSt) : MRes :=
  let meta := readMetaSt st
  let cachedEtag := truthy meta.manifestEtag
  match oracle cachedEtag with
  | .fail => ⟨.error (.fetchError manifestUrl), st, 1⟩
  | .resp status body etg =>
    if status = 304 then
      match readCached st with
      | .error e => ⟨.error e, st, 1⟩
      | .ok (some m) => ⟨.ok m, st, 1⟩
      | .ok none =>
        let r := fetchManifestWithoutEtag oracle now st
        { r with fetches := r.fetches + 1 }
    else if status ≠ 200 then ⟨.error (.fetchError manifestUrl), st, 1⟩
    else
      match decodeBody body with
      | none => ⟨.error .manifestError, st, 1⟩
      | some parsed =>
        let st1 : MSt := { st with manifestFile := some body }
        let updated : Meta :=
          { meta with manifestFetchedAt := some now, manifestEtag := etg }
        ⟨.ok parsed, { st1 with metaFile := some (some updated) }, 1⟩

/-- `get`: memoized accessor — read the cached copy, and only fetch when
it is absent.  (`refresh` is `fetchManifest` with its result discarded.) -/
def manifestGet (oracle : Option String → HResp Body) (now : String)
    (st : MSt) : MRes :=
  match readCached st with
  | .error e => ⟨.error e, st, 0⟩
  | .ok (some m) => ⟨.ok m, st, 0⟩
  | .ok none => fetchManifest oracle now st

/-- A state whose cached manifest file is present but does not parse,
while the Meta file is absent. -/
def c2State : MSt := ⟨some (.malformed "not json"), none⟩

/-- An origin that would happily serve a fresh, valid registry. -/
def c2Oracle : Option String → HResp Body :=
  fun _ => .resp 200 (.wf ⟨1, [("alpha", ⟨"A", ["index.md"]⟩)]⟩) (some "W/1")

/-- C2 counterexample: with the cached manifest file present but
unparseable, `get()` fails with `ManifestError` after zero network
requests — it does not fall back to `refresh()` as the claim states,
even though the origin would have served a valid registry. -/
theorem manifestGet_unparseable_cached_counterexample :
    manifestGet c2Oracle "2026-01-01T00:00:00.000Z" c2State =
      ⟨.error .manifestError, c2State, 0⟩ := by
  decide

/-- C2 (amended): `get()` returns the registry parsed from the cached
manifest file, with zero network requests, whenever that file is present
and parses; when the file is absent it performs the `fetchManifest`
refresh path; but when the file is present and unparseable it fails with
`ManifestError`, again with zero network requests, rather than falling
back to the network. -/
theorem manifestGet_spec (oracle : Option String → HResp Body) (now : String)
    (st : MSt) :
    (∀ m, st.manifestFile = some (.wf m) →
      manifestGet oracle now st = ⟨.ok m, st, 0⟩) ∧
    (st.manifestFile = none →
      manifestGet oracle now st = fetchManifest oracle now st) ∧
    (∀ s, st.manifestFile = some (.malformed s) →
      manifestGet oracle now st = ⟨.error .manifestError, st, 0⟩) := by
  refine ⟨fun m hm => ?_, fun hn => ?_, fun s hs => ?_⟩
  · simp [manifestGet, readCached, decodeBody, hm]
  · simp [manifestGet, readCached, decodeBody, hn]
  · simp [manifestGet, readCached, decodeBody, hs]

/-- Closed witness for the C2 amended theorem on a concrete cached state. -/
theorem manifestGet_spec_witness :
    manifestGet (fun _ => .fail) "T" ⟨some (.wf ⟨1, []⟩), none⟩ =
      ⟨.ok ⟨1, []⟩, ⟨some (.wf ⟨1, []⟩), none⟩, 0⟩ :=
  (manifestGet_spec (fun _ => .fail) "T" ⟨some (.wf ⟨1, []⟩), none⟩).1 ⟨1, []⟩ rfl

/-- A Meta whose stored registry etag is `W/"x"`. -/
def c4Meta : Meta := { manifestEtag := some "W/x" }

/-- Cached manifest file present but unparseable, Meta holding the etag. -/
def c4State : MSt := ⟨some (.malformed "junk"), some (some c4Meta)⟩

/-- An origin that answers 304 to the stored validator and would serve a
valid registry to an unconditional request. -/
def c4Oracle : Option String → HResp Body :=
  fun h =>
    if h = some "W/x" then .resp 304 (.malformed "") none
    else .resp 200 (.wf ⟨1, []⟩) (some "W/y")

/-- C4 counterexample: on a 304 "unchanged" response with the local
cached copy present but unparseable, the refresh fails with
`ManifestError` after the single conditional request — it does not
self-heal with an unconditional fetch as the claim states. -/
theorem refresh_304_unparseable_counterexample :
    fetchManifest c4Oracle "T" c4State = ⟨.error .manifestError, c4State, 1⟩ := by
  decide

/-- C4 (amended): when the conditional refresh receives a 304 response,
it returns the locally cached registry copy if that copy parses; if the
copy is missing it falls back to an unconditional full fetch
(self-healing); but if the copy is present and unparseable it fails with
`ManifestError` after only the conditional request. -/
theorem fetchManifest_304_spec (oracle : Option String → HResp Body) (now : String)
    (st : MSt) (b : Body) (e : Option String)
    (h304 : oracle (truthy (readMetaSt st).manifestEtag) = HResp.resp 304 b e) :
    (∀ m, st.manifestFile = some (.wf m) →
      fetchManifest oracle now st = ⟨.ok m, st, 1⟩) ∧
    (st.manifestFile = none →
      fetchManifest oracle now st =
        { fetchManifestWithoutEtag oracle now st with
            fetches := (fetchManifestWithoutEtag oracle now st).fetches + 1 }) ∧
    (∀ s, st.manifestFile = some (.malformed s) →
      fetchManifest oracle now st = ⟨.error .manifestError, st, 1⟩) := by
  refine ⟨fun m hm => ?_, fun hn => ?_, fun s hs => ?_⟩
  · simp [fetchManifest, readCached, decodeBody, h304, hm]
  · simp [fetchManifest, readCached, decodeBody, h304, hn]
  · simp [fetchManifest, readCached, decodeBody, h304, hs]

/-- Closed witness for the C4 amended theorem: a parseable cached copy is
returned on 304. -/
theorem fetchManifest_304_spec_witness :
    fetchManifest (fun _ => .resp 304 (.malformed "") none) "T"
        ⟨some (.wf ⟨2, []⟩), none⟩ =
      ⟨.ok ⟨2, []⟩, ⟨some (.wf ⟨2, []⟩), none⟩, 1⟩ :=
  (fetchManifest_304_spec (fun _ => .resp 304 (.malformed "") none) "T"
      ⟨some (.wf ⟨2, []⟩), none⟩ (.malformed "") none rfl).1 ⟨2, []⟩ rfl

/-! ## Fuzzy matcher (`levDistance` at the bottom of `PrimerCache.ts`) -/

/-- One cell-by-cell pass of the Levenshtein DP row for row character
`bc`: `prev` is the previous matrix row (indexed by prefixes of `a`),
`last` the cell just computed on the current row. -/
def levNextRowGo (bc : Char) : List Char → List Nat → Nat → List Nat
  | [], _, _ => []
  | a :: as, prev, last =>
    match prev with
    | [] => []
    | pd :: pr =>
      let up := pr.headD 0
      let cur := if a = bc then pd else Nat.min (Nat.min pd up) last + 1
      cur :: levNextRowGo bc as pr cur

/-- The next full matrix row (leading column cell included). -/
def levNextRow (bc : Char) (ac : List Char) (prev : List Nat) : List Nat :=
  let first := prev.headD 0 + 1
  first :: levNextRowGo bc ac prev first

/-- The bounded edit-distance of the source (`matrix[i][j]` recurrence
with unit-cost insert/delete/substitute), computed row by row; the final
answer is `matrix[b.length][a.length]`. -/
def levDistance (a b : String) : Nat :=
  if a.data.length = 0 then b.data.length
  else if b.data.length = 0 then a.data.length
  else
    let row0 := List.range (a.data.length + 1)
    let lastRow := b.data.foldl (fun prev bc => levNextRow bc a.data prev) row0
    lastRow.getLastD 0

/-! ## `PrimerCache.suggestSimilar` (lines 311–347) -/

/-- `file.replace(/\.md$/, "").replace(/\/index$/, "")` — shared between
`suggestSimilar` and the compact-index generator. -/
def fileToTopic (file : String) : String :=
  dropSuffixIf (dropSuffixIf file ".md") "/index"

/-- The first suggestion loop: sub-paths of the queried bundle whose
flattened name contains the query or is within edit distance 4, capped at
3 suggestions. -/
def suggestSubPaths (pn query : String) (files : List String) : List String :=
  files.foldl
    (fun acc file =>
      if acc.length ≥ 3 then acc
      else
        let filePath := fileToTopic file
        if filePath ≠ "" ∧ filePath ≠ "index" then
          let fullPath := pn ++ " " ++ slashToSpace filePath
          if strContainsSub (lowerStr fullPath) query ∨
              levDistance query (lowerStr fullPath) < 4 then
            acc ++ [fullPath]
          else acc
        else acc)
    []

/-- The second loop: bundle names within edit distance 3 of the query,
still capped at 3 total. -/
def suggestBundleNames (query : String) (names : List String)
    (acc0 : List String) : List String :=
  names.foldl
    (fun acc nm =>
      if acc.length ≥ 3 then acc
      else if levDistance query (lowerStr nm) < 3 then acc ++ [nm]
      else acc)
    acc0

/-- The pure suggestion computation of `suggestSimilar`, given the
registry.  `segments[0]` is falsy in JS when absent or empty. -/
def suggestions (manifestData : Manifest) (segments : List String) : List String :=
  let query := lowerStr (String.intercalate "/" segments)
  let s1 :=
    match segments.head? with
    | none => []
    | some pn =>
      if pn = "" then []
      else
        match manifestData.primers.lookup pn with
        | some cfg => suggestSubPaths pn query cfg.files
        | none => []
  suggestBundleNames query (manifestData.primers.map Prod.fst) s1

/-- `suggestSimilar` as the caller sees it: the first statement of the
source is `yield* manifest.get`, whose failure propagates (there is no
`catchAll` in `suggestSimilar`, and its declared error channel is
`ManifestError | FetchError | PlatformError`). -/
def suggestSimilar (mres : Except PrimerError Manifest) (segments : List String) :
    Except PrimerError (List String) :=
  match mres with
  | .error e => .error e
  | .ok manifestData => .ok (suggestions manifestData segments)

/-- A fold step that either leaves the accumulator unchanged or appends
one element when strictly below the cap keeps the length at most 3. -/
theorem foldl_cap3 {α : Type} (f : List String → α → List String)
    (hf : ∀ acc x, f acc x = acc ∨ (acc.length < 3 ∧ (f acc x).length = acc.length + 1)) :
    ∀ (l : List α) (acc : List String), acc.length ≤ 3 → (l.foldl f acc).length ≤ 3 := by
  intro l
  induction l with
  | nil => intro acc h; simpa using h
  | cons x xs ih =>
    intro acc h
    have hstep : (f acc x).length ≤ 3 := by
      rcases hf acc x with he | ⟨hlt, hlen⟩
      · rw [he]; exact h
      · omega
    simpa using ih (f acc x) hstep

theorem suggestSubPaths_length_le (pn query : String) (files : List String) :
    (suggestSubPaths pn query files).length ≤ 3 := by
  unfold suggestSubPaths
  refine foldl_cap3 _ ?_ files [] (by simp)
  intro acc x
  by_cases hcap : acc.length ≥ 3
  · left; simp [hcap]
  · by_cases hfp : fileToTopic x ≠ "" ∧ fileToTopic x ≠ "index"
    · by_cases hmatch :
        strContainsSub (lowerStr (pn ++ " " ++ slashToSpace (fileToTopic x))) query ∨
          levDistance query (lowerStr (pn ++ " " ++ slashToSpace (fileToTopic x))) < 4
      · right
        refine ⟨by omega, ?_⟩
        simp [hcap, hfp, hmatch]
      · left; simp [hcap, hfp, hmatch]
    · left; simp [hcap, hfp]

theorem suggestBundleNames_length_le (query : String) (names : List String)
    (acc0 : List String) (h : acc0.length ≤ 3) :
    (suggestBundleNames query names acc0).length ≤ 3 := by
  unfold suggestBundleNames
  refine foldl_cap3 _ ?_ names acc0 h
  intro acc x
  by_cases hcap : acc.length ≥ 3
  · left; simp [hcap]
  · by_cases hlev : levDistance query (lowerStr x) < 3
    · right; exact ⟨by omega, by simp [hcap, hlev]⟩
    · left; simp [hcap, hlev]

theorem suggestions_length_le (m : Manifest) (segments : List String) :
    (suggestions m segments).length ≤ 3 := by
  unfold suggestions
  apply suggestBundleNames_length_le
  cases h : segments.head? with
  | none => simp
  | some pn =>
    by_cases hpn : pn = ""
    · simp [hpn]
    · cases hc : m.primers.lookup pn with
      | none => simp [hpn, hc]
      | some cfg => simp [hpn, hc, suggestSubPaths_length_le]

/-- C1 counterexample: on registry-fetch failure `suggestSimilar`
propagates the error to the caller instead of degrading to an empty
suggestion list. -/
theorem suggestSimilar_propagates_counterexample :
    suggestSimilar (.error (.fetchError manifestUrl)) ["effect"] =
        .error (.fetchError manifestUrl) ∧
      suggestSimilar (.error (.fetchError manifestUrl)) ["effect"] ≠ .ok [] := by
  constructor
  · rfl
  · intro h; cases h

/-- C1 (amended): `suggestSimilar` propagates any failure of the
registry accessor (`manifest.get`) to the caller; when the registry is
available it cannot fail, and returns at most 3 suggestions. -/
theorem suggestSimilar_spec (mres : Except PrimerError Manifest)
    (segments : List String) :
    (∀ e, mres = .error e → suggestSimilar mres segments = .error e) ∧
    (∀ m, mres = .ok m →
      suggestSimilar mres segments = .ok (suggestions m segments) ∧
        (suggestions m segments).length ≤ 3) := by
  constructor
  · intro e he; rw [he]; rfl
  · intro m hm; rw [hm]
    exact ⟨rfl, suggestions_length_le m segments⟩

/-- Closed witness for the C1 amended theorem. -/
theorem suggestSimilar_spec_witness :
    suggestSimilar (.error .manifestError) ["bun", "serve"] = .error .manifestError :=
  (suggestSimilar_spec (.error .manifestError) ["bun", "serve"]).1 .manifestError rfl

/-! ## Directory trees (for the compact-index generator)

`generateCompact` walks a bundle directory recursively
(`fs.readDirectory` / `fs.stat`), so for it the filesystem is modelled
structurally.  To keep every function structurally recursive (hence
kernel-reducible), the entry list of a directory is encoded directly in
the constructors: a directory is either `dirNil` (no entries) or
`dirCons name child rest` (first entry `name ↦ child`, remaining entries
`rest`); `rest` is always directory-shaped. -/

/-- A directory tree: leaf files with contents, or directories given as
a constructor-level list of named entries (in `readDirectory` order). -/
inductive DirTree where
  | file : String → DirTree
  | dirNil : DirTree
  | dirCons : String → DirTree → DirTree → DirTree
deriving Repr, DecidableEq

/-- Relative-path join: `base ? base + "/" + entry : entry`. -/
def joinRel (base entry : String) : String :=
  if base = "" then entry else base ++ "/" ++ entry

/-- `collectFiles`: the recursive walk collecting relative paths of all
`.md` files, in entry order, descending into subdirectories in place. -/
def collectFiles : DirTree → String → List String
  | .file _, _ => []
  | .dirNil, _ => []
  | .dirCons entry child rest, base =>
    (match child with
     | .file _ => if strEndsWith entry ".md" then [joinRel base entry] else []
     | _ => collectFiles child (joinRel base entry)) ++ collectFiles rest base

/-- Entry lookup in a directory node (the `fs` resolving one path
segment). -/
def entryLookup : DirTree → String → Option DirTree
  | .dirCons name child rest, s =>
    if name = s then some child else entryLookup rest s
  | _, _ => none

/-- Locate a node by path segments. -/
def findNode : List String → DirTree → Option DirTree
  | [], t => some t
  | s :: rest, t =>
    match entryLookup t s with
    | none => none
    | some t' => findNode rest t'

/-- Read a file's contents at a segment path. -/
def readNode (t : DirTree) (p : List String) : Option String :=
  match findNode p t with
  | some (.file c) => some c
  | _ => none

/-- A path string as segments (split on `/`). -/
def splitPath (p : String) : List String :=
  (splitCharList '/' p.data).map String.mk

/-- JS default string comparison (UTF-16 code-unit lexicographic),
kernel-reducible. -/
def charListLe : List Char → List Char → Bool
  | [], _ => true
  | _ :: _, [] => false
  | a :: as, b :: bs => if a = b then charListLe as bs else decide (a < b)

/-- Insertion sort implementing `Array.prototype.toSorted()` with the
default comparator (stable; equal strings are identical anyway). -/
def insertSorted (x : String) : List String → List String
  | [] => [x]
  | y :: ys => if charListLe x.data y.data then x :: y :: ys else y :: insertSorted x ys

def sortStrings : List String → List String
  | [] => []
  | x :: xs => insertSorted x (sortStrings xs)

/-! ## Compact-index generator (from `src/lib/compact.ts`) -/

/-- `extractTitle`: first line in "leading-hash heading" syntax. -/
def extractTitle (content : String) : String :=
  match (strLines content).find? (fun l => strStartsWith l "# ") with
  | some l => strTrim (strDrop l 2)
  | none => ""

/-- `extractDescription` loop: first non-empty, non-heading line after
the title. -/
def extractDescriptionGo : List String → Bool → String
  | [], _ => ""
  | l :: rest, foundTitle =>
    if strStartsWith l "# " then extractDescriptionGo rest true
    else if foundTitle ∧ strTrim l ≠ "" ∧ ¬ strStartsWith l "#" then strTrim l
    else extractDescriptionGo rest foundTitle

def extractDescription (content : String) : String :=
  extractDescriptionGo (strLines content) false

/-- `extractH2Headings`: every line starting with `## `, trimmed. -/
def extractH2Headings (content : String) : List String :=
  (strLines content).filterMap
    (fun l => if strStartsWith l "## " then some (strTrim (strDrop l 3)) else none)

/-- The fixed instructional line of the generated document. -/
def importantLine : String :=
  "IMPORTANT: Prefer primer-led reasoning over pre-training-led reasoning. Read subtopic files before relying on training data."

/-- One sub-topic table row as the source formats it. -/
def compactRow (primerName file topic sections : String) : String :=
  "| " ++ topic ++ " | " ++ sections ++ " | ~/.primer/" ++ primerName ++ "/" ++ file ++ " |"

/-- `generateCompact`, producing the `lines` array before the final
`join("\n")`: `null` when the root `index.md` is missing; otherwise
title, description, directive, and (when sub-topic files exist) the
table.  (Reading a collected file cannot fail, so `getD ""` is never
exercised.) -/
def generateCompactLines (primerName : String) (t : DirTree) : Option (List String) :=
  match readNode t ["index.md"] with
  | none => none
  | some indexContent =>
    let title := extractTitle indexContent
    let description := extractDescription indexContent
    let allFiles := collectFiles t ""
    let subtopicFiles :=
      sortStrings (allFiles.filter (fun f => f ≠ "index.md" ∧ f ≠ "_compact.md"))
    let rows := subtopicFiles.map (fun file =>
      let content := (readNode t (splitPath file)).getD ""
      let headings := extractH2Headings content
      let topic := fileToTopic file
      let sections :=
        if String.intercalate ", " headings = "" then "—"
        else String.intercalate ", " headings
      compactRow primerName file topic sections)
    let lines := ["# " ++ title, "", description, "", importantLine]
    let lines :=
      if rows.length > 0 then
        lines ++ ["", "## Subtopics", "", "| Topic | Sections | File |", "|---|---|---|"] ++ rows
      else lines
    some (lines ++ [""])

/-- `generateCompact`: the joined document. -/
def generateCompact (primerName : String) (t : DirTree) : Option String :=
  (generateCompactLines primerName t).map (String.intercalate "\n")

/-- The sub-topic rows as the C9 specification sentence describes them:
one row per `.md` file other than the root `index.md` and `_compact.md`,
sorted lexicographically, each row showing the topic (path with the
extension and any trailing `/index` stripped), the file's level-2
headings joined by commas (the placeholder "—" when that list joins to
nothing), and the display path `~/.primer/<name>/<file>`. -/
def specSubtopicRows (primerName : String) (t : DirTree) : List String :=
  let mdFiles := (collectFiles t "").filter
    (fun f => ¬ (f = "index.md" ∨ f = "_compact.md"))
  (sortStrings mdFiles).map (fun f =>
    let topic := dropSuffixIf (dropSuffixIf f ".md") "/index"
    let joined :=
      String.intercalate ", " (extractH2Headings ((readNode t (splitPath f)).getD ""))
    let sections := if joined = "" then "—" else joined
    s!"| {topic} | {sections} | ~/.primer/{primerName}/{f} |")

/-- C9: `generateCompact(name, dir)` returns `null` exactly when the
directory has no root `index.md`; otherwise its line list is a 5-line
header block followed (when sub-topic files exist) by the table whose
rows are exactly `specSubtopicRows` — one row per `.md` file other than
the root `index.md` and `_compact.md`, sorted lexicographically, with
topic, comma-joined level-2 headings (or "—"), and display path. -/
theorem generateCompact_characterization (primerName : String) (t : DirTree) :
    (generateCompact primerName t = none ↔ readNode t ["index.md"] = none) ∧
    (∀ ls, generateCompactLines primerName t = some ls →
      ∃ pre : List String, pre.length = 5 ∧
        ls = pre ++
          (if specSubtopicRows primerName t = [] then []
           else ["", "## Subtopics", "", "| Topic | Sections | File |",
             "|---|---|---|"] ++ specSubtopicRows primerName t) ++ [""]) := by
  have hfilter :
      (collectFiles t "").filter
          (fun f => decide (f ≠ "index.md" ∧ f ≠ "_compact.md")) =
        (collectFiles t "").filter
          (fun f => decide (¬ (f = "index.md" ∨ f = "_compact.md"))) := by
    apply List.filter_congr
    intro x _
    exact decide_eq_decide.mpr (by tauto)
  have hrows :
      (sortStrings ((collectFiles t "").filter
          (fun f => decide (f ≠ "index.md" ∧ f ≠ "_compact.md")))).map
        (fun file =>
          let content := (readNode t (splitPath file)).getD ""
          let headings := extractH2Headings content
          let topic := fileToTopic file
          let sections :=
            if String.intercalate ", " headings = "" then "—"
            else String.intercalate ", " headings
          compactRow primerName file topic sections) =
        specSubtopicRows primerName t := by
    rw [hfilter]
    unfold specSubtopicRows
    apply List.map_congr_left
    intro f _
    simp only [compactRow, fileToTopic]
    rfl
  constructor
  · unfold generateCompact generateCompactLines
    cases h : readNode t ["index.md"] <;> simp [h]
  · intro ls hls
    unfold generateCompactLines at hls
    cases h : readNode t ["index.md"] with
    | none => rw [h] at hls; cases hls
    | some idx =>
      rw [h] at hls
      simp only [Option.some.injEq] at hls
      subst hls
      refine ⟨["# " ++ extractTitle idx, "", extractDescription idx, "", importantLine],
        rfl, ?_⟩
      rw [hrows]
      by_cases hr : specSubtopicRows primerName t = []
      · simp [hr]
      · have hpos : (specSubtopicRows primerName t).length > 0 :=
          List.length_pos.mpr hr
        simp only [hr, hpos, if_pos, if_neg]
        simp [List.append_assoc]

/-- A concrete bundle directory for the C9 witness. -/
def c9Tree : DirTree :=
  .dirCons "index.md" (.file "# T\n\nDesc.\n")
    (.dirCons "setup.md" (.file "# S\n\n## Install\n") .dirNil)

/-- Closed witness for the C9 theorem: the generator's output on
`c9Tree` decomposes as the theorem states. -/
theorem generateCompact_characterization_witness :
    ∃ pre : List String, pre.length = 5 ∧
      ["# T", "", "Desc.", "", importantLine, "", "## Subtopics", "",
        "| Topic | Sections | File |", "|---|---|---|",
        "| setup | Install | ~/.primer/alpha/setup.md |", ""] =
        pre ++
          (if specSubtopicRows "alpha" c9Tree = [] then []
           else ["", "## Subtopics", "", "| Topic | Sections | File |",
             "|---|---|---|"] ++ specSubtopicRows "alpha" c9Tree) ++ [""] :=
  (generateCompact_characterization "alpha" c9Tree).2 _ (by decide)

/-! ## Bridging the flat file map to a directory tree

`ensure`/`refreshPrimer` work against the flat `FS`, but call
`generateCompact` on the bundle's directory; `bundleTree` materialises
the directory structure the OS presents for the flat entries under
`<name>/`. -/

/-- Entry update in a directory-shaped tree (replace in place, append
at the end when missing). -/
def setEntryT : DirTree → String → DirTree → DirTree
  | .dirCons name child rest, s, v =>
    if name = s then .dirCons s v rest else .dirCons name child (setEntryT rest s v)
  | _, s, v => .dirCons s v .dirNil

/-- Write a file at a segment path, creating directories as needed. -/
def writeTree : DirTree → List String → String → DirTree
  | t, [], _ => t
  | t, [s], c => setEntryT t s (.file c)
  | t, s :: rest, c =>
    setEntryT t s (writeTree ((entryLookup t s).getD .dirNil) rest c)

/-- The tree spanned by a list of (relative path, contents) entries. -/
def treeOfEntries (entries : List (String × String)) : DirTree :=
  entries.foldl (fun t kc => writeTree t (splitPath kc.1) kc.2) .dirNil

/-- The entries of the flat store under `<name>/`, with the prefix
stripped. -/
def bundleEntries (fs : FS) (name : String) : List (String × String) :=
  fs.filterMap (fun kc =>
    if strStartsWith kc.1 (name ++ "/") then some (strDrop kc.1 (name.length + 1), kc.2)
    else none)

/-- The bundle's directory as `generateCompact` sees it. -/
def bundleTree (fs : FS) (name : String) : DirTree :=
  treeOfEntries (bundleEntries fs name)

/-! ## `PrimerCache` state and conditional fetch
(from `src/services/PrimerCache.ts`) -/

/-- The state `PrimerCache` operations touch: the file tree under the
base directory (keys are `<bundle>/<relative path>`) and the Meta record
behind `_meta.json`. -/
structure PSt where
  fs : FS
  meta : Meta
deriving Repr, DecidableEq

/-- The `FetchResult` union of the source. -/
inductive FetchResult where
  | notModified
  | changed (content : String) (etag : Option String)
deriving Repr, DecidableEq

/-- A deterministic origin for bundle files: request path and optional
`If-None-Match` header to response. -/
abbrev FileOracle := String → Option String → HResp String

def rawFileUrl (filePath : String) : String :=
  "https://raw.githubusercontent.com/cevr/primer/main/primers/" ++ filePath

/-- `fetchFile`: conditional GET (header sent only for a truthy cached
etag); 304 ↦ `notModified`, 200 ↦ `changed` with the response etag, any
other status or transport failure ↦ `FetchError`. -/
def fetchFile (oracle : FileOracle) (filePath : String) (cachedEtag : Option String) :
    Except PrimerError FetchResult :=
  match oracle filePath (truthy cachedEtag) with
  | .fail => .error (.fetchError (rawFileUrl filePath))
  | .resp status content etg =>
    if status = 304 then .ok .notModified
    else if status ≠ 200 then .error (.fetchError (rawFileUrl filePath))
    else .ok (.changed content etg)

/-- `path.join(primerDir, file)` relative to the base directory. -/
def fileKey (name f : String) : String := name ++ "/" ++ f

/-- `meta.primers ?? {}`. -/
def metaPrimers (meta : Meta) : List (String × PrimerMetaEntry) := meta.primers.getD []

/-- `meta.primers?.[name]?.etags ?? {}`. -/
def metaEtags (meta : Meta) (name : String) : List (String × String) :=
  match (metaPrimers meta).lookup name with
  | some entry => entry.etags.getD []
  | none => []

/-- `{...meta, primers: {...meta.primers, [name]: {fetchedAt, etags}}}`. -/
def setPrimerMeta (meta : Meta) (name now : String) (etags : List (String × String)) :
    Meta :=
  { meta with primers := some (setPair (metaPrimers meta) name ⟨now, some etags⟩) }

/-- Regenerate and write the bundle's `_compact.md` when the generator
returns a document (shared tail of `ensure` and `refreshPrimer`). -/
def writeCompact (fs : FS) (name : String) : FS :=
  match generateCompact name (bundleTree fs name) with
  | none => fs
  | some out => fsWrite fs (fileKey name "_compact.md") out

/-! ## `ensure` (PrimerCache.ts lines 92–162) -/

/-- Outcome of `ensure`: result, final state, and the relative names of
the files it fetched. -/
structure EnsureOut where
  res : Except PrimerError Unit
  st : PSt
  fetched : List String
deriving Repr, DecidableEq

/-- The batched unconditional fetches of `ensure` (`Effect.all`):
results are fully collected before any write; a failing fetch fails the
whole batch before anything is written. -/
def fetchAllNew (oracle : FileOracle) (name : String) :
    List String → Except PrimerError (List (String × FetchResult))
  | [] => .ok []
  | f :: rest =>
    match fetchFile oracle (fileKey name f) none with
    | .error e => .error e
    | .ok r =>
      match fetchAllNew oracle name rest with
      | .error e => .error e
      | .ok rs => .ok ((f, r) :: rs)

/-- The write loop of `ensure`: write each changed file and record its
etag when truthy; `notModified` entries are skipped. -/
def applyNewResults (name : String) (init : FS × List (String × String))
    (results : List (String × FetchResult)) : FS × List (String × String) :=
  results.foldl
    (fun acc fr =>
      match fr.2 with
      | .notModified => acc
      | .changed c et =>
        (fsWrite acc.1 (fileKey name fr.1) c,
         match truthy et with
         | some e => setPair acc.2 fr.1 e
         | none => acc.2))
    init

/-- `ensure`: unknown bundle ↦ `FetchError`; otherwise fetch exactly the
files missing on disk, write them, merge etags, update Meta and
regenerate the compact index — returning early (no fetch, no write) when
nothing is missing. -/
def ensure (m : Manifest) (oracle : FileOracle) (now : String) (name : String)
    (st : PSt) : EnsureOut :=
  match m.primers.lookup name with
  | none => ⟨.error (.fetchError ("primers/" ++ name)), st, []⟩
  | some primerConfig =>
    let existingEtags := metaEtags st.meta name
    let missingFiles :=
      primerConfig.files.filter (fun f => (fsRead st.fs (fileKey name f)).isNone)
    if missingFiles.isEmpty then ⟨.ok (), st, []⟩
    else
      match fetchAllNew oracle name missingFiles with
      | .error e => ⟨.error e, st, missingFiles⟩
      | .ok results =>
        let folded := applyNewResults name (st.fs, existingEtags) results
        ⟨.ok (), ⟨writeCompact folded.1 name, setPrimerMeta st.meta name now folded.2⟩,
          missingFiles⟩

/-! ## `refreshPrimer` / `refreshInBackground` / `refreshAll`
(PrimerCache.ts lines 204–309) -/

/-- One conditional per-file fetch of the refresh loop, with its
`catchAll` (a failed fetch becomes `none` and is silently skipped). -/
def refreshFetch (oracle : FileOracle) (name : String)
    (existingEtags : List (String × String)) (f : String) : Option FetchResult :=
  (fetchFile oracle (fileKey name f) (existingEtags.lookup f)).toOption

/-- Did this per-file outcome change the file? -/
def isChangedOpt : Option FetchResult → Bool
  | some (.changed _ _) => true
  | _ => false

/-- The write loop of `refreshPrimer`: write only changed files, merge
truthy etags, and track whether anything was updated. -/
def applyRefreshResults (name : String) (init : FS × List (String × String) × Bool)
    (results : List (String × Option FetchResult)) :
    FS × List (String × String) × Bool :=
  results.foldl
    (fun acc fr =>
      match fr.2 with
      | some (.changed c et) =>
        (fsWrite acc.1 (fileKey name fr.1) c,
         (match truthy et with
          | some e => setPair acc.2.1 fr.1 e
          | none => acc.2.1),
         true)
      | _ => acc)
    init

/-- Outcome of `refreshPrimer`: the bundle-changed flag, the final
state, and the request paths it issued (every file is fetched). -/
structure RefreshOut where
  updated : Bool
  st : PSt
  fetched : List String
deriving Repr, DecidableEq

/-- `refreshPrimer`: conditional-fetch all files, write the changed
ones, and — only when something changed — update Meta and regenerate the
compact index. -/
def refreshPrimer (oracle : FileOracle) (now : String) (name : String)
    (files : List String) (existingEtags : List (String × String)) (st : PSt) :
    RefreshOut :=
  let results := files.map (fun f => (f, refreshFetch oracle name existingEtags f))
  let folded := applyRefreshResults name (st.fs, existingEtags, false) results
  if folded.2.2 then
    ⟨true, ⟨writeCompact folded.1 name, setPrimerMeta st.meta name now folded.2.1⟩,
      files.map (fileKey name)⟩
  else ⟨false, ⟨folded.1, st.meta⟩, files.map (fileKey name)⟩

/-- `refreshInBackground`: silent no-op for a bundle absent from the
registry; otherwise `refreshPrimer` with the stored etags (all errors
swallowed — in this model the operation is total). -/
def refreshInBackground (m : Manifest) (oracle : FileOracle) (now : String)
    (name : String) (st : PSt) : PSt :=
  match m.primers.lookup name with
  | none => st
  | some cfg => (refreshPrimer oracle now name cfg.files (metaEtags st.meta name) st).st

/-- Outcome of `refreshAll`. -/
structure RefreshAllOut where
  refreshed : List String
  st : PSt
  fetched : List String
deriving Repr, DecidableEq

/-- The body of `refreshAll`'s loop over one installed bundle name:
skip names absent from the registry, otherwise refresh with the etags of
the up-front Meta snapshot `meta0` and record the name if it changed. -/
def refreshAllStep (m : Manifest) (oracle : FileOracle) (now : String) (meta0 : Meta)
    (acc : RefreshAllOut) (name : String) : RefreshAllOut :=
  match m.primers.lookup name with
  | none => acc
  | some cfg =>
    let out := refreshPrimer oracle now name cfg.files (metaEtags meta0 name) acc.st
    ⟨acc.refreshed ++ (if out.updated then [name] else []), out.st,
      acc.fetched ++ out.fetched⟩

/-- `refreshAll`: over the bundles recorded in Meta (snapshot taken once
up front, also for the etags), skip those absent from the registry,
refresh the rest sequentially, and collect the names that changed. -/
def refreshAll (m : Manifest) (oracle : FileOracle) (now : String) (st : PSt) :
    RefreshAllOut :=
  let meta0 := st.meta
  let installed := (metaPrimers meta0).map Prod.fst
  if installed.isEmpty then ⟨[], st, []⟩
  else installed.foldl (refreshAllStep m oracle now meta0) ⟨[], st, []⟩

/-! ## Helper lemmas for the `ensure` claims -/

theorem strAppend_left_cancel {a b c : String} (h : a ++ b = a ++ c) : b = c := by
  have hd : a.data ++ b.data = a.data ++ c.data := by
    calc a.data ++ b.data = (a ++ b).data := (String.data_append a b).symm
      _ = (a ++ c).data := by rw [h]
      _ = a.data ++ c.data := String.data_append a c
  have hbc : b.data = c.data := List.append_cancel_left hd
  cases b; cases c; exact congrArg String.mk hbc

theorem fileKey_inj {name f g : String} (h : fileKey name f = fileKey name g) : f = g :=
  strAppend_left_cancel (a := name ++ "/") h

/-- An HTTP-conformant origin never answers 304 to an unconditional
request (a 304 only validates a supplied `If-None-Match`). -/
def ConformantOrigin (oracle : FileOracle) : Prop :=
  ∀ fp content etg, oracle fp none ≠ .resp 304 content etg

theorem fetchFile_ok_changed {oracle : FileOracle} {fp : String} {r : FetchResult}
    (hconf : ConformantOrigin oracle) (h : fetchFile oracle fp none = .ok r) :
    ∃ c e, r = .changed c e := by
  unfold fetchFile at h
  simp only [truthy] at h
  cases ho : oracle fp none with
  | fail => rw [ho] at h; cases h
  | resp s c e =>
    rw [ho] at h
    by_cases h304 : s = 304
    · exact absurd (h304 ▸ ho) (hconf fp c e)
    · by_cases h200 : s = 200
      · subst h200
        simp at h
        exact ⟨c, e, h.symm⟩
      · simp [h304, h200] at h

theorem fetchAllNew_ok (oracle : FileOracle) (name : String) :
    ∀ (files : List String) (results : List (String × FetchResult)),
      fetchAllNew oracle name files = .ok results →
      results.map Prod.fst = files ∧
        ∀ fr ∈ results, fetchFile oracle (fileKey name fr.1) none = .ok fr.2 := by
  intro files
  induction files with
  | nil =>
    intro results h
    unfold fetchAllNew at h
    simp only [Except.ok.injEq] at h
    subst h
    exact ⟨rfl, by simp⟩
  | cons f rest ih =>
    intro results h
    unfold fetchAllNew at h
    cases hf : fetchFile oracle (fileKey name f) none with
    | error e => rw [hf] at h; cases h
    | ok r =>
      rw [hf] at h
      cases hrest : fetchAllNew oracle name rest with
      | error e => rw [hrest] at h; cases h
      | ok rs =>
        rw [hrest] at h
        simp only [Except.ok.injEq] at h
        subst h
        obtain ⟨hmap, hall⟩ := ih rs hrest
        refine ⟨by simp [hmap], ?_⟩
        intro fr hfr
        rcases List.mem_cons.mp hfr with hfr | hfr
        · subst hfr; exact hf
        · exact hall fr hfr

theorem applyNew_fs_mono (name : String) :
    ∀ (results : List (String × FetchResult)) (init : FS × List (String × String))
      (k : String), ((init.1).lookup k).isSome →
      (((applyNewResults name init results).1).lookup k).isSome := by
  intro results
  induction results with
  | nil => intro init k h; simpa [applyNewResults] using h
  | cons fr rest ih =>
    intro init k h
    unfold applyNewResults
    rw [List.foldl_cons]
    cases hr : fr.2 with
    | notModified =>
      simp only [hr]
      exact ih init k h
    | changed c et =>
      simp only [hr]
      apply ih
      exact lookup_setPair_mono _ _ _ _ h

theorem applyNew_fs_written (name f : String) (c : String) (et : Option String) :
    ∀ (results : List (String × FetchResult)) (init : FS × List (String × String)),
      (f, FetchResult.changed c et) ∈ results →
      (((applyNewResults name init results).1).lookup (fileKey name f)).isSome := by
  intro results
  induction results with
  | nil => intro init h; cases h
  | cons fr rest ih =>
    intro init h
    rcases List.mem_cons.mp h with h | h
    · subst h
      unfold applyNewResults
      rw [List.foldl_cons]
      apply applyNew_fs_mono
      simp [fsWrite, lookup_setPair_self]
    · unfold applyNewResults
      rw [List.foldl_cons]
      cases hr : fr.2 <;> simp only [hr] <;> exact ih _ h

theorem writeCompact_mono (fs : FS) (name k : String)
    (h : (fs.lookup k).isSome) : (((writeCompact fs name)).lookup k).isSome := by
  unfold writeCompact
  cases generateCompact name (bundleTree fs name) with
  | none => exact h
  | some out => exact lookup_setPair_mono _ _ _ _ h

theorem isNone_eq_false_of_isSome {α : Type} {o : Option α} (h : o.isSome) :
    o.isNone = false := by
  cases o <;> simp_all

/-- C5: `ensure(n)` never fetches a file already present on disk (every
fetched name was missing from the store at call time), and — against an
HTTP-conformant origin — once a call to `ensure(n)` succeeds, a second
call finds every file of the bundle present, performs no fetch, and
leaves the state untouched. -/
theorem ensure_idempotent (m : Manifest) (oracle : FileOracle) (now now₂ : String)
    (name : String) (st : PSt) :
    (∀ f ∈ (ensure m oracle now name st).fetched,
      fsRead st.fs (fileKey name f) = none) ∧
    (ConformantOrigin oracle →
      (ensure m oracle now name st).res = .ok () →
      ensure m oracle now₂ name ((ensure m oracle now name st).st) =
        ⟨.ok (), (ensure m oracle now name st).st, []⟩) := by
  constructor
  · intro f hf
    cases hm : m.primers.lookup name with
    | none =>
      unfold ensure at hf; rw [hm] at hf; simp at hf
    | some cfg =>
      have hbranch : ensure m oracle now name st =
          (if (cfg.files.filter (fun g => (fsRead st.fs (fileKey name g)).isNone)).isEmpty
           then ⟨.ok (), st, []⟩
           else
             match fetchAllNew oracle name
                 (cfg.files.filter (fun g => (fsRead st.fs (fileKey name g)).isNone)) with
             | .error e =>
               ⟨.error e, st, cfg.files.filter (fun g => (fsRead st.fs (fileKey name g)).isNone)⟩
             | .ok results =>
               ⟨.ok (),
                 ⟨writeCompact
                     (applyNewResults name (st.fs, metaEtags st.meta name) results).1 name,
                   setPrimerMeta st.meta name now
                     (applyNewResults name (st.fs, metaEtags st.meta name) results).2⟩,
                 cfg.files.filter (fun g => (fsRead st.fs (fileKey name g)).isNone)⟩) := by
        unfold ensure; rw [hm]
      have hsub : (ensure m oracle now name st).fetched = [] ∨
          (ensure m oracle now name st).fetched =
            cfg.files.filter (fun g => (fsRead st.fs (fileKey name g)).isNone) := by
        rw [hbranch]
        split
        · left; rfl
        · split
          · right; rfl
          · right; rfl
      rcases hsub with hsub | hsub
      · rw [hsub] at hf; cases hf
      · rw [hsub] at hf
        exact Option.isNone_iff_eq_none.mp (List.mem_filter.mp hf).2
  · intro hconf hok
    cases hm : m.primers.lookup name with
    | none =>
      unfold ensure at hok; rw [hm] at hok; simp at hok
    | some cfg =>
      have hsecond : ∀ stE : PSt,
          (∀ f ∈ cfg.files, (fsRead stE.fs (fileKey name f)).isSome) →
          ensure m oracle now₂ name stE = ⟨.ok (), stE, []⟩ := by
        intro stE hp
        have hfil :
            cfg.files.filter (fun f => (fsRead stE.fs (fileKey name f)).isNone) = [] :=
          List.filter_eq_nil_iff.mpr
            (fun f hf => by simp [isNone_eq_false_of_isSome (hp f hf)])
        unfold ensure; rw [hm]
        simp [hfil]
      by_cases hemp :
          (cfg.files.filter (fun f => (fsRead st.fs (fileKey name f)).isNone)).isEmpty
      · have hE : ensure m oracle now name st = ⟨.ok (), st, []⟩ := by
          unfold ensure; rw [hm]; simp [hemp]
        rw [hE]
        refine hsecond st ?_
        intro f hf
        have hnil := List.isEmpty_iff.mp hemp
        have := List.filter_eq_nil_iff.mp hnil f hf
        simp only [decide_eq_true_eq] at this
        cases ho : fsRead st.fs (fileKey name f) with
        | none => rw [ho] at this; simp at this
        | some v => simp
      · cases hfetch :
            fetchAllNew oracle name
              (cfg.files.filter (fun f => (fsRead st.fs (fileKey name f)).isNone)) with
        | error e =>
          have hres : (ensure m oracle now name st).res = .error e := by
            unfold ensure; rw [hm]; simp [hemp, hfetch]
          rw [hres] at hok; cases hok
        | ok results =>
          obtain ⟨hmap, hall⟩ := fetchAllNew_ok oracle name _ results hfetch
          have hE : ensure m oracle now name st =
              ⟨.ok (),
                ⟨writeCompact
                    (applyNewResults name (st.fs, metaEtags st.meta name) results).1 name,
                  setPrimerMeta st.meta name now
                    (applyNewResults name (st.fs, metaEtags st.meta name) results).2⟩,
                cfg.files.filter (fun f => (fsRead st.fs (fileKey name f)).isNone)⟩ := by
            unfold ensure; rw [hm]; simp [hemp, hfetch]
          have hpres : ∀ f ∈ cfg.files,
              (fsRead
                (writeCompact
                  (applyNewResults name (st.fs, metaEtags st.meta name) results).1 name)
                (fileKey name f)).isSome := by
            intro f hf
            by_cases hmiss : (fsRead st.fs (fileKey name f)).isNone = true
            · have hfm : f ∈ cfg.files.filter
                  (fun g => (fsRead st.fs (fileKey name g)).isNone) :=
                List.mem_filter.mpr ⟨hf, by simpa using hmiss⟩
              rw [← hmap] at hfm
              obtain ⟨fr, hfr, hfst⟩ := List.mem_map.mp hfm
              obtain ⟨c, e, hch⟩ := fetchFile_ok_changed hconf (hall fr hfr)
              have hmem : (f, FetchResult.changed c e) ∈ results := by
                obtain ⟨fr1, fr2⟩ := fr
                simp only at hfst hch
                subst hfst; subst hch
                exact hfr
              exact writeCompact_mono _ _ _ (applyNew_fs_written name f c e results _ hmem)
            · have hsome : (fsRead st.fs (fileKey name f)).isSome := by
                cases ho : fsRead st.fs (fileKey name f) with
                | none => rw [ho] at hmiss; simp at hmiss
                | some v => simp
              exact writeCompact_mono _ _ _ (applyNew_fs_mono name results _ _ hsome)
          rw [hE]
          exact hsecond _ hpres

/-- Concrete registry and origin for the C5 witness. -/
def c5Manifest : Manifest := ⟨1, [("alpha", ⟨"A", ["index.md", "setup.md"]⟩)]⟩

def c5Oracle : FileOracle := fun fp _ => .resp 200 ("C:" ++ fp) (some "W/1")

/-- Closed witness for C5: after a successful `ensure`, the second
`ensure` succeeds, fetches nothing, and leaves the state unchanged. -/
theorem ensure_idempotent_witness :
    ensure c5Manifest c5Oracle "t2" "alpha"
        ((ensure c5Manifest c5Oracle "t1" "alpha" ⟨[], {}⟩).st) =
      ⟨.ok (), (ensure c5Manifest c5Oracle "t1" "alpha" ⟨[], {}⟩).st, []⟩ :=
  (ensure_idempotent c5Manifest c5Oracle "t1" "t2" "alpha" ⟨[], {}⟩).2
    (fun fp c e h => by injection h with h1 _ _; exact absurd h1 (by decide))
    (by decide)

/-! ## Helper lemmas for the refresh claims -/

theorem applyRefresh_cons (name : String) (init : FS × List (String × String) × Bool)
    (fr : String × Option FetchResult) (rest : List (String × Option FetchResult)) :
    applyRefreshResults name init (fr :: rest) =
      applyRefreshResults name
        (match fr.2 with
         | some (.changed c et) =>
           (fsWrite init.1 (fileKey name fr.1) c,
            (match truthy et with
             | some e => setPair init.2.1 fr.1 e
             | none => init.2.1),
            true)
         | _ => init) rest := by
  unfold applyRefreshResults
  rw [List.foldl_cons]

theorem applyRefresh_updated (name : String) :
    ∀ (results : List (String × Option FetchResult))
      (init : FS × List (String × String) × Bool),
      (applyRefreshResults name init results).2.2 =
        (init.2.2 || results.any (fun fr => isChangedOpt fr.2)) := by
  intro results
  induction results with
  | nil => intro init; simp [applyRefreshResults]
  | cons fr rest ih =>
    intro init
    rw [applyRefresh_cons, ih]
    cases hr : fr.2 with
    | none => simp [isChangedOpt, hr]
    | some r =>
      cases r with
      | notModified => simp [isChangedOpt, hr]
      | changed c et => simp [isChangedOpt, hr]

theorem applyRefresh_id_of_none (name : String) :
    ∀ (results : List (String × Option FetchResult))
      (init : FS × List (String × String) × Bool),
      (∀ fr ∈ results, isChangedOpt fr.2 = false) →
      applyRefreshResults name init results = init := by
  intro results
  induction results with
  | nil => intro init _; simp [applyRefreshResults]
  | cons fr rest ih =>
    intro init hall
    rw [applyRefresh_cons]
    have hhd : isChangedOpt fr.2 = false := hall fr (List.mem_cons_self fr rest)
    have htl : ∀ g ∈ rest, isChangedOpt g.2 = false :=
      fun g hg => hall g (List.mem_cons_of_mem fr hg)
    cases hr : fr.2 with
    | none => simpa [hr] using ih init htl
    | some r =>
      cases r with
      | notModified => simpa [hr] using ih init htl
      | changed c et => rw [hr] at hhd; simp [isChangedOpt] at hhd

theorem applyRefresh_fs_frame (name k : String) :
    ∀ (results : List (String × Option FetchResult))
      (init : FS × List (String × String) × Bool),
      (∀ fr ∈ results, isChangedOpt fr.2 = true → fileKey name fr.1 ≠ k) →
      ((applyRefreshResults name init results).1).lookup k = (init.1).lookup k := by
  intro results
  induction results with
  | nil => intro init _; simp [applyRefreshResults]
  | cons fr rest ih =>
    intro init hall
    rw [applyRefresh_cons]
    have htl : ∀ g ∈ rest, isChangedOpt g.2 = true → fileKey name g.1 ≠ k :=
      fun g hg => hall g (List.mem_cons_of_mem fr hg)
    cases hr : fr.2 with
    | none => simpa [hr] using ih init htl
    | some r =>
      cases r with
      | notModified => simpa [hr] using ih init htl
      | changed c et =>
        have hkey : fileKey name fr.1 ≠ k :=
          hall fr (List.mem_cons_self fr rest) (by simp [hr, isChangedOpt])
        simp only [hr]
        rw [ih _ htl]
        exact lookup_setPair_other _ _ _ _ (Ne.symm hkey)

theorem applyRefresh_etag_frame (name f : String) :
    ∀ (results : List (String × Option FetchResult))
      (init : FS × List (String × String) × Bool),
      (∀ fr ∈ results, isChangedOpt fr.2 = true → fr.1 ≠ f) →
      ((applyRefreshResults name init results).2.1).lookup f = (init.2.1).lookup f := by
  intro results
  induction results with
  | nil => intro init _; simp [applyRefreshResults]
  | cons fr rest ih =>
    intro init hall
    rw [applyRefresh_cons]
    have htl : ∀ g ∈ rest, isChangedOpt g.2 = true → g.1 ≠ f :=
      fun g hg => hall g (List.mem_cons_of_mem fr hg)
    cases hr : fr.2 with
    | none => simpa [hr] using ih init htl
    | some r =>
      cases r with
      | notModified => simpa [hr] using ih init htl
      | changed c et =>
        have hkey : fr.1 ≠ f :=
          hall fr (List.mem_cons_self fr rest) (by simp [hr, isChangedOpt])
        simp only [hr]
        rw [ih _ htl]
        cases truthy et with
        | none => rfl
        | some e => exact lookup_setPair_other _ _ _ _ (Ne.symm hkey)

theorem any_map_general {α β : Type} (f : α → β) (p : β → Bool) :
    ∀ l : List α, (l.map f).any p = l.any (fun a => p (f a)) := by
  intro l
  induction l with
  | nil => rfl
  | cons x xs ih => simp [ih]

/-- "at least one file of the bundle actually changed" — the per-file
conditional fetches, with the stored etags, yield some `changed`. -/
def bundleChanged (oracle : FileOracle) (name : String) (files : List String)
    (eetags : List (String × String)) : Bool :=
  files.any (fun f => isChangedOpt (refreshFetch oracle name eetags f))

theorem refreshPrimer_updated (oracle : FileOracle) (now name : String)
    (files : List String) (eetags : List (String × String)) (st : PSt) :
    (refreshPrimer oracle now name files eetags st).updated =
      bundleChanged oracle name files eetags := by
  have hfold :
      (applyRefreshResults name (st.fs, eetags, false)
          (files.map (fun f => (f, refreshFetch oracle name eetags f)))).2.2 =
        bundleChanged oracle name files eetags := by
    rw [applyRefresh_updated]
    show (false ||
        (files.map (fun f => (f, refreshFetch oracle name eetags f))).any
          (fun fr => isChangedOpt fr.2)) = _
    rw [Bool.false_or, any_map_general]
    rfl
  unfold refreshPrimer
  dsimp only
  split
  · rename_i h
    rw [← hfold]
    exact h.symm
  · rename_i h
    rw [← hfold]
    simp only [Bool.not_eq_true] at h
    exact h.symm

theorem refreshPrimer_fetched (oracle : FileOracle) (now name : String)
    (files : List String) (eetags : List (String × String)) (st : PSt) :
    (refreshPrimer oracle now name files eetags st).fetched =
      files.map (fileKey name) := by
  unfold refreshPrimer
  dsimp only
  split <;> rfl

theorem refreshPrimer_no_change (oracle : FileOracle) (now name : String)
    (files : List String) (eetags : List (String × String)) (st : PSt)
    (h : ∀ f ∈ files, isChangedOpt (refreshFetch oracle name eetags f) = false) :
    refreshPrimer oracle now name files eetags st =
      ⟨false, st, files.map (fileKey name)⟩ := by
  have hall : ∀ fr ∈ files.map (fun f => (f, refreshFetch oracle name eetags f)),
      isChangedOpt fr.2 = false := by
    intro fr hfr
    obtain ⟨f, hf, rfl⟩ := List.mem_map.mp hfr
    exact h f hf
  have hid := applyRefresh_id_of_none name _ (st.fs, eetags, false) hall
  unfold refreshPrimer
  dsimp only
  rw [hid]
  simp

theorem metaEtags_setPrimerMeta_self (meta : Meta) (name now : String)
    (etags : List (String × String)) :
    metaEtags (setPrimerMeta meta name now etags) name = etags := by
  unfold metaEtags setPrimerMeta metaPrimers
  simp [lookup_setPair_self]

theorem writeCompact_frame (fs : FS) (name k : String)
    (h : k ≠ fileKey name "_compact.md") :
    ((writeCompact fs name) : FS).lookup k = fs.lookup k := by
  unfold writeCompact
  cases generateCompact name (bundleTree fs name) with
  | none => rfl
  | some out => exact lookup_setPair_other _ _ _ _ h

/-- Whether `refreshAll` will report bundle `n` as changed: it must be
in the registry and some file's conditional fetch (with the snapshot
Meta's etags) must come back `changed`. -/
def bundleWillChange (m : Manifest) (oracle : FileOracle) (meta0 : Meta)
    (n : String) : Bool :=
  match m.primers.lookup n with
  | some cfg => bundleChanged oracle n cfg.files (metaEtags meta0 n)
  | none => false

theorem foldl_refreshAllStep_refreshed (m : Manifest) (oracle : FileOracle)
    (now : String) (meta0 : Meta) :
    ∀ (names : List String) (acc : RefreshAllOut),
      (names.foldl (refreshAllStep m oracle now meta0) acc).refreshed =
        acc.refreshed ++ names.filter (bundleWillChange m oracle meta0) := by
  intro names
  induction names with
  | nil => intro acc; simp
  | cons n ns ih =>
    intro acc
    rw [List.foldl_cons, ih, List.filter_cons]
    cases hm : m.primers.lookup n with
    | none =>
      simp [refreshAllStep, hm, bundleWillChange]
    | some cfg =>
      simp only [refreshAllStep, hm, bundleWillChange]
      rw [refreshPrimer_updated]
      cases hb : bundleChanged oracle n cfg.files (metaEtags meta0 n) with
      | false => simp [hb]
      | true => simp [hb]

theorem foldl_refreshAllStep_fetched (m : Manifest) (oracle : FileOracle)
    (now : String) (meta0 : Meta) :
    ∀ (names : List String) (acc : RefreshAllOut) (p : String),
      p ∈ (names.foldl (refreshAllStep m oracle now meta0) acc).fetched →
      p ∈ acc.fetched ∨
        ∃ n ∈ names, ∃ cfg, m.primers.lookup n = some cfg ∧
          ∃ f ∈ cfg.files, p = fileKey n f := by
  intro names
  induction names with
  | nil => intro acc p hp; left; simpa using hp
  | cons n ns ih =>
    intro acc p hp
    rw [List.foldl_cons] at hp
    rcases ih _ p hp with hcase | ⟨n', hn', cfg, hcfg, f, hf, hkey⟩
    · cases hm : m.primers.lookup n with
      | none =>
        rw [refreshAllStep, hm] at hcase
        left; exact hcase
      | some cfg =>
        rw [refreshAllStep, hm] at hcase
        dsimp only at hcase
        rcases List.mem_append.mp hcase with h | h
        · left; exact h
        · right
          rw [refreshPrimer_fetched] at h
          obtain ⟨f, hf, rfl⟩ := List.mem_map.mp h
          exact ⟨n, List.mem_cons_self n ns, cfg, hm, f, hf, rfl⟩
    · right
      exact ⟨n', List.mem_cons_of_mem n hn', cfg, hcfg, f, hf, hkey⟩

/-- C6: `refreshAll` touches only bundles already recorded in Meta
(every fetched path belongs to an installed, registered bundle), returns
the empty list on a Meta with zero entries (whatever the registry
lists), and its return value is exactly the installed bundle names whose
refresh changed at least one file. -/
theorem refreshAll_spec (m : Manifest) (oracle : FileOracle) (now : String)
    (st : PSt) :
    (metaPrimers st.meta = [] → refreshAll m oracle now st = ⟨[], st, []⟩) ∧
    ((refreshAll m oracle now st).refreshed =
      ((metaPrimers st.meta).map Prod.fst).filter (bundleWillChange m oracle st.meta)) ∧
    (∀ p ∈ (refreshAll m oracle now st).fetched,
      ∃ n ∈ (metaPrimers st.meta).map Prod.fst, ∃ cfg,
        m.primers.lookup n = some cfg ∧ ∃ f ∈ cfg.files, p = fileKey n f) := by
  refine ⟨?_, ?_, ?_⟩
  · intro h
    unfold refreshAll
    simp [h]
  · unfold refreshAll
    dsimp only
    by_cases hemp : ((metaPrimers st.meta).map Prod.fst).isEmpty
    · have hnil := List.isEmpty_iff.mp hemp
      simp [hemp, hnil]
    · simp only [hemp, Bool.false_eq_true, if_false]
      rw [foldl_refreshAllStep_refreshed]
      simp
  · intro p hp
    unfold refreshAll at hp
    dsimp only at hp
    by_cases hemp : ((metaPrimers st.meta).map Prod.fst).isEmpty
    · simp [hemp] at hp
    · simp only [hemp, Bool.false_eq_true, if_false] at hp
      rcases foldl_refreshAllStep_fetched m oracle now st.meta _ _ p hp with h | h
      · simp at h
      · exact h

/-- Closed witness for C6: with a Meta holding zero entries, a populated
registry, and an origin that would serve anything, `refreshAll` returns
the empty list and leaves the state alone. -/
theorem refreshAll_spec_witness :
    refreshAll ⟨1, [("alpha", ⟨"A", ["index.md"]⟩)]⟩ (fun _ _ => .fail) "t"
        ⟨[], {}⟩ = ⟨[], ⟨[], {}⟩, []⟩ :=
  (refreshAll_spec ⟨1, [("alpha", ⟨"A", ["index.md"]⟩)]⟩ (fun _ _ => .fail) "t"
    ⟨[], {}⟩).1 rfl

theorem refreshPrimer_meta_updated (oracle : FileOracle) (now name : String)
    (files : List String) (eetags : List (String × String)) (st : PSt)
    (hupd : (refreshPrimer oracle now name files eetags st).updated = true) :
    (refreshPrimer oracle now name files eetags st).st.meta =
      setPrimerMeta st.meta name now
        (applyRefreshResults name (st.fs, eetags, false)
          (files.map (fun f => (f, refreshFetch oracle name eetags f)))).2.1 := by
  unfold refreshPrimer at hupd ⊢
  dsimp only at hupd ⊢
  split at hupd
  · rename_i h
    rw [if_pos h]
  · simp at hupd

/-- C8: during the shared per-bundle refresh logic (used by
`refreshInBackground` and `refreshAll`), a file whose conditional fetch
answers "not modified" is never rewritten on disk; and when no file of
the bundle changed, the whole operation leaves the state — files, Meta
record, and compact index — untouched (in particular
`refreshInBackground` is a frame-preserving no-op). -/
theorem refresh_not_modified_frame (m : Manifest) (oracle : FileOracle) (now : String)
    (name : String) (files : List String) (eetags : List (String × String)) (st : PSt) :
    (∀ f, f ∈ files → f ≠ "_compact.md" →
      refreshFetch oracle name eetags f = some .notModified →
      fsRead (refreshPrimer oracle now name files eetags st).st.fs (fileKey name f) =
        fsRead st.fs (fileKey name f)) ∧
    ((∀ f ∈ files, isChangedOpt (refreshFetch oracle name eetags f) = false) →
      refreshPrimer oracle now name files eetags st =
        ⟨false, st, files.map (fileKey name)⟩) ∧
    (∀ cfg, m.primers.lookup name = some cfg →
      (∀ f ∈ cfg.files,
        isChangedOpt (refreshFetch oracle name (metaEtags st.meta name) f) = false) →
      refreshInBackground m oracle now name st = st) := by
  refine ⟨?_, ?_, ?_⟩
  · intro f hf hfc hnm
    have hcond : ∀ fr ∈ files.map (fun g => (g, refreshFetch oracle name eetags g)),
        isChangedOpt fr.2 = true → fileKey name fr.1 ≠ fileKey name f := by
      intro fr hfr hchg hkey
      obtain ⟨g, hg, rfl⟩ := List.mem_map.mp hfr
      have hgf : g = f := fileKey_inj hkey
      rw [hgf, hnm] at hchg
      simp [isChangedOpt] at hchg
    have hframe :=
      applyRefresh_fs_frame name (fileKey name f) _ (st.fs, eetags, false) hcond
    have hne : fileKey name f ≠ fileKey name "_compact.md" :=
      fun hkey => hfc (fileKey_inj hkey)
    unfold refreshPrimer
    dsimp only
    split
    · unfold fsRead
      rw [writeCompact_frame _ _ _ hne]
      exact hframe
    · unfold fsRead
      exact hframe
  · exact refreshPrimer_no_change oracle now name files eetags st
  · intro cfg hm h
    unfold refreshInBackground
    rw [hm]
    dsimp only
    rw [refreshPrimer_no_change oracle now name cfg.files _ st h]

/-- The 304-answering origin of the C8 witness. -/
def c8Oracle : FileOracle := fun _ h =>
  if h = some "W/1" then .resp 304 "" none else .resp 200 "new" (some "W/2")

/-- Closed witness for C8: a file whose stored etag the origin still
validates keeps its on-disk content across a refresh. -/
theorem refresh_not_modified_frame_witness :
    fsRead (refreshPrimer c8Oracle "t" "alpha" ["setup.md"] [("setup.md", "W/1")]
        ⟨[("alpha/setup.md", "old")], {}⟩).st.fs (fileKey "alpha" "setup.md") =
      fsRead [("alpha/setup.md", "old")] (fileKey "alpha" "setup.md") :=
  (refresh_not_modified_frame ⟨1, []⟩ c8Oracle "t" "alpha" ["setup.md"]
    [("setup.md", "W/1")] ⟨[("alpha/setup.md", "old")], {}⟩).1 "setup.md"
    (by decide) (by decide) (by decide)

/-- C10: a per-file fetch failure during refresh is silently discarded:
the file keeps its on-disk content, its stored etag survives any Meta
rewrite, the refresh operation itself still returns; when every fetch of
a bundle fails, the bundle's state is completely untouched and
`refreshAll` does not report it as changed. -/
theorem refresh_failure_discarded (m : Manifest) (oracle : FileOracle) (now : String)
    (name : String) (files : List String) (eetags : List (String × String)) (st : PSt) :
    (∀ f, f ∈ files → f ≠ "_compact.md" →
      refreshFetch oracle name eetags f = none →
      (fsRead (refreshPrimer oracle now name files eetags st).st.fs (fileKey name f) =
          fsRead st.fs (fileKey name f)) ∧
      ((refreshPrimer oracle now name files eetags st).updated = true →
        (metaEtags (refreshPrimer oracle now name files eetags st).st.meta name).lookup f =
          eetags.lookup f)) ∧
    ((∀ f ∈ files, refreshFetch oracle name eetags f = none) →
      refreshPrimer oracle now name files eetags st =
        ⟨false, st, files.map (fileKey name)⟩) ∧
    (∀ cfg, m.primers.lookup name = some cfg →
      (∀ f ∈ cfg.files, refreshFetch oracle name (metaEtags st.meta name) f = none) →
      name ∉ (refreshAll m oracle now st).refreshed) := by
  refine ⟨?_, ?_, ?_⟩
  · intro f hf hfc hnone
    have hcondK : ∀ fr ∈ files.map (fun g => (g, refreshFetch oracle name eetags g)),
        isChangedOpt fr.2 = true → fileKey name fr.1 ≠ fileKey name f := by
      intro fr hfr hchg hkey
      obtain ⟨g, hg, rfl⟩ := List.mem_map.mp hfr
      have hgf : g = f := fileKey_inj hkey
      rw [hgf, hnone] at hchg
      simp [isChangedOpt] at hchg
    have hcondE : ∀ fr ∈ files.map (fun g => (g, refreshFetch oracle name eetags g)),
        isChangedOpt fr.2 = true → fr.1 ≠ f := by
      intro fr hfr hchg hkey
      obtain ⟨g, hg, rfl⟩ := List.mem_map.mp hfr
      simp only at hkey
      rw [hkey, hnone] at hchg
      simp [isChangedOpt] at hchg
    have hframeF :=
      applyRefresh_fs_frame name (fileKey name f) _ (st.fs, eetags, false) hcondK
    have hframeE := applyRefresh_etag_frame name f _ (st.fs, eetags, false) hcondE
    have hne : fileKey name f ≠ fileKey name "_compact.md" :=
      fun hkey => hfc (fileKey_inj hkey)
    constructor
    · unfold refreshPrimer
      dsimp only
      split
      · unfold fsRead
        rw [writeCompact_frame _ _ _ hne]
        exact hframeF
      · unfold fsRead
        exact hframeF
    · intro hupd
      rw [refreshPrimer_meta_updated oracle now name files eetags st hupd,
        metaEtags_setPrimerMeta_self]
      exact hframeE
  · intro h
    refine refreshPrimer_no_change oracle now name files eetags st ?_
    intro f hf
    rw [h f hf]
    rfl
  · intro cfg hm hall hmem
    unfold refreshAll at hmem
    dsimp only at hmem
    by_cases hemp : ((metaPrimers st.meta).map Prod.fst).isEmpty
    · simp [hemp] at hmem
    · simp only [hemp, Bool.false_eq_true, if_false] at hmem
      rw [foldl_refreshAllStep_refreshed] at hmem
      simp only [List.nil_append] at hmem
      have hbc := (List.mem_filter.mp hmem).2
      unfold bundleWillChange at hbc
      rw [hm] at hbc
      unfold bundleChanged at hbc
      simp only [decide_eq_true_eq] at hbc
      obtain ⟨f, hf, hch⟩ := List.any_eq_true.mp hbc
      rw [hall f hf] at hch
      simp [isChangedOpt] at hch

/-- Closed witness for C10: when every fetch of a bundle fails, the
refresh reports "unchanged" and leaves the state untouched. -/
theorem refresh_failure_discarded_witness :
    refreshPrimer (fun _ _ => .fail) "t" "alpha" ["setup.md"] []
        ⟨[("alpha/setup.md", "old")], {}⟩ =
      ⟨false, ⟨[("alpha/setup.md", "old")], {}⟩, ["setup.md"].map (fileKey "alpha")⟩ :=
  (refresh_failure_discarded ⟨1, []⟩ (fun _ _ => .fail) "t" "alpha" ["setup.md"] []
    ⟨[("alpha/setup.md", "old")], {}⟩).2.1 (by decide)

/-! ## `writeMeta` (from `src/lib/meta.ts`) -/

/-- JSON string escaping (backslash and quote; control characters do not
occur in the timestamps, names and etags stored here). -/
def jsonEscape (s : String) : String :=
  ⟨s.data.foldr (fun c acc => if c = '"' ∨ c = '\\' then '\\' :: c :: acc else c :: acc) []⟩

def jstr (s : String) : String := "\"" ++ jsonEscape s ++ "\""

/-- An opening brace, as JSON punctuation. -/
def obr : String := "\x7b"

/-- A closing brace, as JSON punctuation. -/
def cbr : String := "\x7d"

/-- `JSON.stringify` of an etag map. -/
def encodeEtags (etags : List (String × String)) : String :=
  obr ++ String.intercalate ","
    (etags.map (fun kv => jstr kv.1 ++ ":" ++ obr ++ jstr "etag" ++ ":" ++ jstr kv.2 ++ cbr))
    ++ cbr

/-- `JSON.stringify` of one Meta bundle entry (optional field omitted
when absent, as `Schema.optional` encodes). -/
def encodePrimerEntry (e : PrimerMetaEntry) : String :=
  obr ++ jstr "fetchedAt" ++ ":" ++ jstr e.fetchedAt ++
    (match e.etags with
     | none => ""
     | some ets => "," ++ jstr "etags" ++ ":" ++ encodeEtags ets) ++ cbr

/-- `Schema.encode(MetaFromJson)`: `JSON.stringify` of the Meta record,
fields in schema order, absent optionals omitted. -/
def encodeMeta (meta : Meta) : String :=
  obr ++ String.intercalate ","
    (List.filterMap id
      [meta.manifestFetchedAt.map (fun v => jstr "manifestFetchedAt" ++ ":" ++ jstr v),
       meta.manifestEtag.map (fun v => jstr "manifestEtag" ++ ":" ++ jstr v),
       meta.primers.map (fun ps =>
         jstr "primers" ++ ":" ++ obr ++ String.intercalate ","
           (ps.map (fun kv => jstr kv.1 ++ ":" ++ encodePrimerEntry kv.2)) ++ cbr)])
    ++ cbr

/-- One filesystem operation, for reasoning about how the Meta document
reaches the disk. -/
inductive FsOp where
  | write (path content : String)
  | rename (src dst : String)
deriving Repr, DecidableEq

def FsOp.isRename : FsOp → Bool
  | .rename _ _ => true
  | _ => false

/-- `writeMeta(path, meta)`: the source serializes and performs a single
`fs.writeFileString(metaPath, metaJson)`; modelled as the state update
together with the trace of filesystem operations it executes. -/
def writeMeta (fs : FS) (metaPath : String) (meta : Meta) : FS × List FsOp :=
  (fsWrite fs metaPath (encodeMeta meta), [.write metaPath (encodeMeta meta)])

/-- The mechanism the claim asserts: the serialized document is written
to a distinct temporary path which is then renamed over the target, so
the target is never the direct destination of a content write. -/
def AtomicViaTempRename (ops : List FsOp) (target : String) : Prop :=
  ∃ tmp content, tmp ≠ target ∧ ops = [.write tmp content, .rename tmp target]

/-- C3 counterexample: `writeMeta`'s operation trace is a single direct
write to the target path — it is not (and contains no) write-to-temp-
then-rename, so a reader concurrent with the lone write can observe a
partial document. -/
theorem writeMeta_not_temp_rename_counterexample :
    ¬ AtomicViaTempRename (writeMeta [] "/base/_meta.json" {}).2 "/base/_meta.json" := by
  rintro ⟨tmp, content, hne, heq⟩
  simp [writeMeta] at heq

/-- C3 (amended): `writeMeta(path, meta)` overwrites the persisted Meta
document with its serialization in one direct `writeFileString` to the
final path, touching no other path and performing no rename — atomicity
via a temporary file is not provided. -/
theorem writeMeta_direct_write (fs : FS) (metaPath : String) (meta : Meta) :
    fsRead (writeMeta fs metaPath meta).1 metaPath = some (encodeMeta meta) ∧
    (∀ p, p ≠ metaPath → fsRead (writeMeta fs metaPath meta).1 p = fsRead fs p) ∧
    (writeMeta fs metaPath meta).2 = [.write metaPath (encodeMeta meta)] ∧
    (∀ op ∈ (writeMeta fs metaPath meta).2, op.isRename = false) := by
  refine ⟨?_, ?_, rfl, ?_⟩
  · exact lookup_setPair_self fs metaPath (encodeMeta meta)
  · intro p hp
    exact lookup_setPair_other fs metaPath p (encodeMeta meta) hp
  · intro op hop
    simp only [writeMeta, List.mem_singleton] at hop
    rw [hop]
    rfl

/-- Closed witness for the C3 amended theorem. -/
theorem writeMeta_direct_write_witness :
    fsRead (writeMeta [("/b/_meta.json", "old")] "/b/_meta.json" {}).1 "/b/_meta.json" =
      some (encodeMeta {}) :=
  (writeMeta_direct_write [("/b/_meta.json", "old")] "/b/_meta.json" {}).1
